import Mathlib

/-
Shallow embedding of src/script.py, a resumable scraper/downloader for a
paginated document listing.  Page markup is modelled as `List Char`
(Python `str`); Python `str.lower` is modelled by `Char.toLower`, which
agrees on the ASCII signatures this program inspects.  The browser and the
HTTP client are external collaborators and are modelled as oracles:
`world : Nat → PageView` gives, for each listing page, its markup, the
href attributes returned by the anchor query, and whether a next-page
control is present; `net : String → Nat → Resp` gives the response for a
given URL on a given (1-based) retry attempt.  All disk and network side
effects are recorded in an explicit event trace.
-/

/-- The double-quote character (written via its code point to keep string
literals free of escapes). -/
def dquote : Char := Char.ofNat 34

/-- The ASCII apostrophe character. -/
def apos : Char := Char.ofNat 39

/-- Python substring test: `needle in hay`. -/
def containsSub : List Char → List Char → Bool
  | [], needle => needle.isEmpty
  | c :: t, needle => needle.isPrefixOf (c :: t) || containsSub t needle

/-- Case-insensitive literal match at the head of the text: the pattern is
given in lowercase and each text character is lowered before comparison.
Models the literal parts of `LINK_RE` under `re.IGNORECASE`. -/
def ciLit : List Char → List Char → Bool
  | [], _ => true
  | _ :: _, [] => false
  | p :: ps, c :: cs => (p == c.toLower) && ciLit ps cs

/-- The opening literal of LINK_RE: `href="`. -/
def hrefPat : List Char := "href=".toList ++ [dquote]

/-- The collection marker literal of LINK_RE: `/epstein/files/`. -/
def markerPat : List Char := "/epstein/files/".toList

/-- The extension literal of LINK_RE: `.pdf`. -/
def pdfPat : List Char := ".pdf".toList

/-- The captured group ends with `.pdf` (case-insensitively). -/
def endsWithPdf (s : List Char) : Bool :=
  decide (4 ≤ s.length) && ciLit pdfPat (s.drop (s.length - 4))

/-- Some occurrence of the collection marker in the captured group leaves at
least one character before the trailing `.pdf` (the `[^"]+` of LINK_RE):
at a suffix of length `L`, the marker (15 chars) plus a nonempty middle
plus `.pdf` (4 chars) requires `20 ≤ L`. -/
def markerWithTail : List Char → Bool
  | [] => false
  | c :: cs => (ciLit markerPat (c :: cs) && decide (20 ≤ (c :: cs).length)) || markerWithTail cs

/-- The captured group of LINK_RE: `[^"]*/epstein/files/[^"]+\.pdf`.  Since
no element of the pattern can consume a quote, the group is exactly the
maximal quote-free run after `href="`, and it matches iff it ends in
`.pdf` and contains the marker with a nonempty remainder before that
suffix. -/
def goodContent (s : List Char) : Bool := endsWithPdf s && markerWithTail s

/-- One attempt of LINK_RE anchored at the head of `s`: `href="` followed by
the maximal quote-free run, a closing quote, and the group condition.
Returns the captured group and the remaining text after the closing
quote. -/
def matchAt (s : List Char) : Option (List Char × List Char) :=
  if ciLit hrefPat s then
    match (s.drop 6).dropWhile (fun c => c ≠ dquote) with
    | [] => none
    | _ :: tail =>
      if goodContent ((s.drop 6).takeWhile (fun c => c ≠ dquote)) then
        some ((s.drop 6).takeWhile (fun c => c ≠ dquote), tail)
      else none
  else none

/-- `re.findall` scan: try a match at each position, emit the group and jump
past the match on success, advance one character on failure.  The fuel is
the length of the text; every step consumes at least one character, so
the scan is never truncated. -/
def scanAux : Nat → List Char → List (List Char)
  | 0, _ => []
  | _ + 1, [] => []
  | fuel + 1, c :: cs =>
    match matchAt (c :: cs) with
    | some (content, rest) => content :: scanAux fuel rest
    | none => scanAux fuel cs

/-- Python first-occurrence dedup with a `seen` set, as in
`_extract_links_from_html`. -/
def dedupGo (seen : List String) : List String → List String
  | [] => []
  | x :: xs => if x ∈ seen then dedupGo seen xs else x :: dedupGo (x :: seen) xs

/-- `_extract_links_from_html`: all LINK_RE matches in order, first
occurrences kept. -/
def extract_links_from_html (html : List Char) : List String :=
  dedupGo [] ((scanAux html.length html).map String.mk)

/-- Lowercase form of the permission-denial phrase checked by
`_is_access_denied`. -/
def permPat : List Char := "you don".toList ++ [apos] ++ "t have permission to access".toList

/-- The edge-network error signature checked by `_is_access_denied`. -/
def edgePat : List Char := "errors.edgesuite.net".toList

/-- First half of the co-occurrence signature of `_is_access_denied`. -/
def refPat : List Char := "reference #".toList

/-- Second half of the co-occurrence signature of `_is_access_denied`. -/
def deniedPat : List Char := "access denied".toList

/-- `_is_access_denied`: empty markup is not blocked; otherwise the lowered
markup is scanned for the three high-confidence denial signatures. -/
def is_access_denied (html : List Char) : Bool :=
  if html.isEmpty then false
  else
    let lowered := html.map Char.toLower
    if containsSub lowered permPat then true
    else if containsSub lowered edgePat then true
    else if containsSub lowered refPat && containsSub lowered deniedPat then true
    else false

/-- `_collect_links_from_page`: the structural strategy returns the non-empty
href attributes of the anchors matching `a[href*="/epstein/files/"]`
verbatim; only when that yields nothing is the raw-markup fallback
`_extract_links_from_html` used. -/
def collect_links_from_page (domLinks : List String) (html : List Char) : List String :=
  let links := domLinks.filter (fun h => h ≠ "")
  if links.isEmpty then extract_links_from_html html else links

/-- Accumulating scan for `lastSeg`: `acc` holds the current segment
reversed; a `/` starts a new segment, so the result is the segment in
progress when the text ends. -/
def lastSegAux : List Char → List Char → List Char
  | acc, [] => acc.reverse
  | acc, c :: cs => if c = '/' then lastSegAux [] cs else lastSegAux (c :: acc) cs

/-- `href.split("/")[-1]`: the canonical file name (identity) of a
reference path, i.e. the text after the last slash. -/
def lastSeg (href : String) : String := String.mk (lastSegAux [] href.toList)

/-- `href.startswith("/")`. -/
def startsWithSlash (href : String) : Bool :=
  match href.toList with
  | [] => false
  | c :: _ => c = '/'

/-- The absolute locator built in `_scrape_pages_for_batch`. -/
def mkUrl (href : String) : String :=
  if startsWithSlash href then String.mk ("https://www.justice.gov".toList ++ href.toList) else href

/-- A record of the persisted Index (`filename`, `url`, `downloaded`). -/
structure FileRecord where
  filename : String
  url : String
  downloaded : Bool
deriving DecidableEq, Repr

/-- A response of the streaming HTTP collaborator: status code and
content-type header. -/
structure Resp where
  status : Nat
  contentType : String

/-- Observable side effects, recorded in order of occurrence.  `pageFetch`
is a browser navigation (goto or next-page click), `netRequest` a
download GET attempt, `fileWrite` a downloaded-file write, `debugWrite`
a `debug_page_N.html` snapshot, `saveIndex`/`saveState` the whole-file
rewrites of the Index and Cursor documents. -/
inductive Ev where
  | pageFetch : Nat → Ev
  | netRequest : String → Nat → Ev
  | fileWrite : String → Ev
  | debugWrite : Nat → Ev
  | saveIndex : Ev
  | saveState : Nat → Ev
  | mkdirOutput : Ev
  | launchBrowser : Ev
  | sleepMs : Nat → Ev
deriving DecidableEq, Repr

/-- State threaded through `_download_batch`: files on disk, the shared
Index, the three counters, and the event trace. -/
structure DLState where
  fs : List String
  index : List FileRecord
  dcount : Nat
  scount : Nat
  fcount : Nat
  trace : List Ev
deriving DecidableEq, Repr

/-- `DOWNLOAD_RETRIES` from the configuration block. -/
def DOWNLOAD_RETRIES : Nat := 5

/-- In-place mutation of the `i`-th Index record's `downloaded` flag to
true (`file_info["downloaded"] = True` on a record aliased into
`all_files`). -/
def setDownloaded : List FileRecord → Nat → List FileRecord
  | [], _ => []
  | r :: rest, 0 => { r with downloaded := true } :: rest
  | r :: rest, i + 1 => r :: setDownloaded rest i

/-- A download attempt is a (retryable) failure iff the status is not 200
or the lowered content-type contains `text/html`. -/
def attemptFails (r : Resp) : Bool :=
  if r.status ≠ 200 then true
  else containsSub (r.contentType.toList.map Char.toLower) "text/html".toList

/-- The retry loop of `_download_batch` for one record: `k` attempts remain
and `attempt` is the 1-based attempt number.  A failed attempt sleeps
`2 * attempt` seconds; a successful one writes the file.  Returns
success and the emitted events. -/
def tryDownload (net : String → Nat → Resp) (url filename : String) : Nat → Nat → Bool × List Ev
  | 0, _ => (false, [])
  | k + 1, attempt =>
    let r := net url attempt
    if attemptFails r then
      let res := tryDownload net url filename k (attempt + 1)
      (res.1, Ev.netRequest url attempt :: Ev.sleepMs (2000 * attempt) :: res.2)
    else
      (true, [Ev.netRequest url attempt, Ev.fileWrite filename])

/-- The loop body of `_download_batch` for one batch entry.  The batch
aliases records of `all_files`, modelled as the position `i` of the
record in the Index.  `snapshot` is `existing_files`, taken once at
batch start; the live `st.fs` models `output_path.exists()`. -/
def downloadStep (net : String → Nat → Resp) (snapshot : List String) (st : DLState) (i : Nat) : DLState :=
  match st.index.get? i with
  | none => st
  | some r =>
    if r.filename ∈ st.fs ∨ r.filename ∈ snapshot then
      { st with index := setDownloaded st.index i
              , scount := st.scount + 1
              , trace := st.trace ++ [Ev.saveIndex] }
    else
      let att := tryDownload net r.url r.filename DOWNLOAD_RETRIES 1
      if att.1 then
        { fs := r.filename :: st.fs
        , index := setDownloaded st.index i
        , dcount := st.dcount + 1
        , scount := st.scount
        , fcount := st.fcount
        , trace := st.trace ++ att.2 ++ [Ev.saveIndex, Ev.sleepMs 300] }
      else
        { st with fcount := st.fcount + 1
                , trace := st.trace ++ att.2 ++ [Ev.saveIndex, Ev.sleepMs 300] }

/-- Sequential processing of the batch entries. -/
def dlFold (net : String → Nat → Resp) (snapshot : List String) : DLState → List Nat → DLState
  | st, [] => st
  | st, i :: rest => dlFold net snapshot (downloadStep net snapshot st i) rest

/-- `_download_batch`: an empty batch returns `(0, 0, 0)` immediately with
no side effects; otherwise the output directory is created, a browser
session is bootstrapped (one navigation to the base page for age
verification, whose cookies seed the HTTP session), and the entries are
processed in order. -/
def download_batch (net : String → Nat → Resp) (fs : List String) (batch : List Nat) (index : List FileRecord) : DLState :=
  match batch with
  | [] => ⟨fs, index, 0, 0, 0, []⟩
  | _ :: _ =>
    dlFold net fs ⟨fs, index, 0, 0, 0, [Ev.mkdirOutput, Ev.launchBrowser, Ev.pageFetch 0]⟩ batch

/-- What the browser shows for a listing page: its markup, the hrefs of
the anchors matching the collection-marker selector, and whether a
next-page control is present. -/
structure PageView where
  html : List Char
  domLinks : List String
  hasNext : Bool

/-- Accumulator of the per-page link loop in `_scrape_pages_for_batch`:
the Index (`all_files`), the identity set (`file_set`), the positions of
records appended this round (`new_files`) and this page
(`page_new_files`). -/
structure LinkAcc where
  index : List FileRecord
  fileSet : List String
  newFiles : List Nat
  pageNew : List Nat
deriving DecidableEq, Repr

/-- `len(new_files) >= batch_size` when a batch size is configured. -/
def capReached : Option Nat → Nat → Bool
  | none, _ => false
  | some b, n => decide (b ≤ n)

/-- The `for href in links` loop: a reference whose identity is already in
`file_set` is dropped; otherwise a record is appended (its `downloaded`
flag pre-set when the file already exists on disk at scrape start) and
the loop breaks once the round cap is reached. -/
def processLinks (snapshot : List String) (batchSize : Option Nat) : List String → LinkAcc → LinkAcc
  | [], acc => acc
  | href :: rest, acc =>
    let filename := lastSeg href
    if filename ∈ acc.fileSet then processLinks snapshot batchSize rest acc
    else
      let acc' : LinkAcc :=
        ⟨acc.index ++ [⟨filename, mkUrl href, decide (filename ∈ snapshot)⟩]
        , filename :: acc.fileSet
        , acc.newFiles ++ [acc.index.length]
        , acc.pageNew ++ [acc.index.length]⟩
      if capReached batchSize acc'.newFiles.length then acc'
      else processLinks snapshot batchSize rest acc'

/-- State threaded through `_scrape_pages_for_batch`: the Index, the
identity set, the persisted cursor value, the disk state, the positions
of this round's new records, and the trace. -/
structure ScrapeState where
  index : List FileRecord
  fileSet : List String
  nextPage : Nat
  fs : List String
  newFiles : List Nat
  trace : List Ev
deriving DecidableEq, Repr

/-- `_save_debug_html`: writes `debug_page_N.html` only when the markup is
non-empty. -/
def debugEvs (html : List Char) (p : Nat) : List Ev :=
  if html.isEmpty then [] else [Ev.debugWrite p]

/-- The main `while` loop of `_scrape_pages_for_batch` at browser position
`pos`.  Checks the round cap, then the access-gate detector (break with
a debug snapshot), then extracts links (break with a debug snapshot when
none), appends new records, downloads this page's new records at once,
advances and persists the cursor and the Index, and follows the
next-page control (break when absent). -/
def scrapeLoop (world : Nat → PageView) (net : String → Nat → Resp) (batchSize : Option Nat) (snapshot : List String) : Nat → Nat → ScrapeState → ScrapeState
  | 0, _, st => st
  | fuel + 1, pos, st =>
    if capReached batchSize st.newFiles.length then st
    else if is_access_denied (world pos).html then
      { st with trace := st.trace ++ debugEvs (world pos).html pos }
    else
      let links := collect_links_from_page (world pos).domLinks (world pos).html
      if links.isEmpty then
        { st with trace := st.trace ++ debugEvs (world pos).html pos }
      else
        let acc := processLinks snapshot batchSize links ⟨st.index, st.fileSet, st.newFiles, []⟩
        let afterDl :=
          if acc.pageNew.isEmpty then (st.fs, acc.index, st.trace)
          else
            let dl := download_batch net st.fs acc.pageNew acc.index
            (dl.fs, dl.index, st.trace ++ dl.trace ++ [Ev.saveIndex])
        let st' : ScrapeState :=
          ⟨afterDl.2.1, acc.fileSet, pos + 1, afterDl.1, acc.newFiles
          , afterDl.2.2 ++ [Ev.saveState (pos + 1), Ev.saveIndex]⟩
        if (world pos).hasNext then
          scrapeLoop world net batchSize snapshot fuel (pos + 1)
            { st' with trace := st'.trace ++ [Ev.pageFetch (pos + 1), Ev.sleepMs 800] }
        else st'

/-- The resume-to-cursor loop: from page `current`, click the next-page
control `remaining` more times, stopping early when the control is
absent.  Returns the reached position and the navigation events. -/
def resumeLoop (world : Nat → PageView) : Nat → Nat → Nat × List Ev
  | current, 0 => (current, [])
  | current, r + 1 =>
    if (world current).hasNext then
      let res := resumeLoop world (current + 1) r
      (res.1, Ev.pageFetch (current + 1) :: res.2)
    else (current, [])

/-- `_scrape_pages_for_batch`: snapshot the disk, bootstrap the browser
(goto base page for age verification, then goto page 0), resume to the
persisted cursor by next-page clicks, then run the main loop. -/
def scrape_pages_for_batch (world : Nat → PageView) (net : String → Nat → Resp) (batchSize : Option Nat) (fuel : Nat) (index : List FileRecord) (fileSet : List String) (statePage : Nat) (fs : List String) : ScrapeState :=
  let resume := resumeLoop world 0 statePage
  scrapeLoop world net batchSize fs fuel resume.1
    ⟨index, fileSet, statePage, fs, []
    , [Ev.launchBrowser, Ev.pageFetch 0, Ev.pageFetch 0] ++ resume.2⟩

/-- Positions of the records with `downloaded = false`, in Index order
(`pending = [f for f in all_files if not f.get("downloaded")]`, as
positions of the aliased records). -/
def pendingIdxAux : List FileRecord → Nat → List Nat
  | [], _ => []
  | r :: rest, i => if r.downloaded then pendingIdxAux rest (i + 1) else i :: pendingIdxAux rest (i + 1)

/-- Positions of the pending records of the Index. -/
def pendingIdx (index : List FileRecord) : List Nat := pendingIdxAux index 0

/-- Orchestrator state: the Index, the identity set built once at startup,
the persisted cursor, the disk state, and the trace. -/
structure AutoState where
  index : List FileRecord
  fileSet : List String
  statePage : Nat
  fs : List String
  trace : List Ev
deriving DecidableEq, Repr

/-- The `while True` loop of `auto_scrape_and_download`: drain pending
records first (halting when any file fails), otherwise crawl one round
and download the newly discovered records, halting when a round yields
nothing. -/
def autoLoop (world : Nat → PageView) (net : String → Nat → Resp) (batchSize : Option Nat) : Nat → AutoState → AutoState
  | 0, st => st
  | fuel + 1, st =>
    let pending := pendingIdx st.index
    if pending.isEmpty then
      let sc := scrape_pages_for_batch world net batchSize (fuel + 1) st.index st.fileSet st.statePage st.fs
      let st' : AutoState := ⟨sc.index, sc.fileSet, sc.nextPage, sc.fs, st.trace ++ sc.trace⟩
      if sc.newFiles.isEmpty then st'
      else
        let dl := download_batch net st'.fs sc.newFiles st'.index
        let st'' : AutoState := ⟨dl.index, st'.fileSet, st'.statePage, dl.fs, st'.trace ++ dl.trace ++ [Ev.saveIndex]⟩
        if dl.fcount ≠ 0 then st'' else autoLoop world net batchSize fuel st''
    else
      let batch := match batchSize with | none => pending | some b => pending.take b
      let dl := download_batch net st.fs batch st.index
      let st' : AutoState := ⟨dl.index, st.fileSet, st.statePage, dl.fs, st.trace ++ dl.trace ++ [Ev.saveIndex]⟩
      if dl.fcount ≠ 0 then st' else autoLoop world net batchSize fuel st'

/-- `file_set = {f["filename"] for f in all_files}` (membership model). -/
def fileSetOf (index : List FileRecord) : List String := index.map FileRecord.filename

/-- `auto_scrape_and_download`: load Index, identity set and cursor, then
run the orchestrator loop. -/
def auto_scrape_and_download (world : Nat → PageView) (net : String → Nat → Resp) (batchSize : Option Nat) (fuel : Nat) (index : List FileRecord) (statePage : Nat) (fs : List String) : AutoState :=
  autoLoop world net batchSize fuel ⟨index, fileSetOf index, statePage, fs, []⟩

/-- First record with the given identity in the Index (Python's aliasing
means every operation observes the first occurrence through this
lookup). -/
def findRec (index : List FileRecord) (name : String) : Option FileRecord :=
  index.find? (fun r => r.filename == name)

/-- Specification relation between two Index snapshots: every identity
whose record is observed downloaded in the first is still observed
downloaded in the second. -/
def DownloadedMono (a b : List FileRecord) : Prop :=
  ∀ name, (findRec a name).map FileRecord.downloaded = some true →
    (findRec b name).map FileRecord.downloaded = some true

/-- Event classifier: browser page navigation. -/
def isPageFetch : Ev → Bool
  | Ev.pageFetch _ => true
  | _ => false

/-- Event classifier: download HTTP request. -/
def isNetRequest : Ev → Bool
  | Ev.netRequest _ _ => true
  | _ => false

/-- Event classifier: downloaded-file write. -/
def isFileWriteEv : Ev → Bool
  | Ev.fileWrite _ => true
  | _ => false

/-- Event classifier: debug snapshot write. -/
def isDebugWrite : Ev → Bool
  | Ev.debugWrite _ => true
  | _ => false

/-- Event classifier: Cursor document write. -/
def isSaveStateEv : Ev → Bool
  | Ev.saveState _ => true
  | _ => false

/-- Concrete page: non-empty markup, one known file reference, no
next-page control. -/
def pv0 : PageView := ⟨['x'], ["/epstein/files/a.pdf"], false⟩

/-- Concrete page: empty markup, no links, no next-page control. -/
def pvE : PageView := ⟨[], [], false⟩

/-- Concrete page: non-empty markup with no file references. -/
def pvNL : PageView := ⟨"<p>x</p>".toList, [], false⟩

/-- Concrete page: like `pv0` but with a next-page control. -/
def pvR : PageView := ⟨['x'], ["/epstein/files/a.pdf"], true⟩

/-- Concrete listing: one page holding the single known file. -/
def cw1 : Nat → PageView := fun p => if p = 0 then pv0 else pvE

/-- Concrete listing: two pages, the known file on both, next-page control
only on page 0. -/
def cw4b : Nat → PageView := fun p => if p = 0 then pvR else if p = 1 then pv0 else pvE

/-- Concrete listing: every page empty. -/
def cw9 : Nat → PageView := fun _ => pvE

/-- Concrete listing: every page has markup but no file references. -/
def cwNL : Nat → PageView := fun _ => pvNL

/-- Concrete network: every request succeeds with a binary payload. -/
def cnet : String → Nat → Resp := fun _ _ => ⟨200, "application/pdf"⟩

/-- Concrete network: every request is refused with an HTML error page. -/
def net403 : String → Nat → Resp := fun _ _ => ⟨403, "text/html"⟩

/-- Concrete Index holding the one file of `cw1`, already downloaded. -/
def cidx1 : List FileRecord := [⟨"a.pdf", "https://www.justice.gov/epstein/files/a.pdf", true⟩]

/-- Concrete Index holding one pending record. -/
def cidxP : List FileRecord := [⟨"a.pdf", "u", false⟩]

/-- Concrete Downloader state over `cidxP` with an empty disk. -/
def dlSt0 : DLState := ⟨[], cidxP, 0, 0, 0, []⟩

/-- Concrete markup holding one well-formed file reference. -/
def htmlA : List Char :=
  "<a href=".toList ++ [dquote] ++ "/epstein/files/abc.pdf".toList ++ [dquote] ++ ">".toList

/-- Two anchor hrefs with the same reference (duplicate anchors on one
page). -/
def cl2 : List String := ["/epstein/files/abc.pdf", "/epstein/files/abc.pdf"]

/-- One anchor href containing the marker but not ending in the target
extension. -/
def clTxt : List String := ["/epstein/files/x.txt"]

/-- The age-verification prompt text probed by `_maybe_accept_age_gate`. -/
def agePrompt : List Char := "Are you 18 years of age or older?".toList

/-- Markup containing the permission-denial phrase in its original case. -/
def permHtml : List Char :=
  "You don".toList ++ [apos] ++ "t have permission to access".toList ++ " this server.".toList


/-! ## Theorems -/

theorem setDownloaded_get? :
    ∀ (l : List FileRecord) (i : Nat) (r : FileRecord), l.get? i = some r →
      (setDownloaded l i).get? i = some { r with downloaded := true } := by
  intro l
  induction l with
  | nil => intro i r h; simp at h
  | cons a t ih =>
    intro i r h
    cases i with
    | zero =>
      simp only [List.get?_cons_zero, Option.some.injEq] at h
      subst h; rfl
    | succ n =>
      simp only [List.get?_cons_succ] at h
      simpa only [setDownloaded, List.get?_cons_succ] using ih n r h

/-- Claim C10: given an empty Batch, the Downloader returns counts
(0, 0, 0) and performs no side effects: no output directory creation, no
browser session launch, no network request, no file write, and no Index
persistence (the returned trace is empty and disk/Index are returned
unchanged). -/
theorem download_batch_empty_no_effects :
    ∀ (net : String → Nat → Resp) (fs : List String) (index : List FileRecord),
      download_batch net fs [] index = ⟨fs, index, 0, 0, 0, []⟩ :=
  fun _ _ _ => rfl

/-- Claim C8: markup containing the permission phrase (case-insensitively,
i.e. after lowering) is classified blocked; markup containing none of the
three denial signatures — in particular markup containing only the
age-verification prompt — is classified not-blocked; empty markup is
not-blocked. -/
theorem is_access_denied_classification :
    ∀ html : List Char,
      (containsSub (html.map Char.toLower) permPat = true → is_access_denied html = true) ∧
      ((containsSub (html.map Char.toLower) permPat = false ∧
        containsSub (html.map Char.toLower) edgePat = false ∧
        (containsSub (html.map Char.toLower) refPat = false ∨
         containsSub (html.map Char.toLower) deniedPat = false)) →
        is_access_denied html = false) ∧
      is_access_denied [] = false := by
  intro html
  refine ⟨?_, ?_, rfl⟩
  · intro h
    cases html with
    | nil => exact absurd h (by decide)
    | cons c t =>
      simp only [List.map_cons] at h
      simp [is_access_denied, h]
  · rintro ⟨h1, h2, h3⟩
    cases html with
    | nil => rfl
    | cons c t =>
      simp only [List.map_cons] at h1 h2
      rcases h3 with h3 | h3 <;>
        simp only [List.map_cons] at h3 <;>
        simp [is_access_denied, h1, h2, h3]

/-- Witness for C8: the detector fires on the permission phrase and stays
silent on the age-verification prompt. -/
theorem is_access_denied_classification_witness :
    is_access_denied permHtml = true ∧ is_access_denied agePrompt = false :=
  ⟨(is_access_denied_classification permHtml).1 (by decide),
   (is_access_denied_classification agePrompt).2.1 (by decide)⟩

/-- Claim C5: a batch record whose destination file already exists (on the
live disk or in the batch-start snapshot) is marked downloaded, counted
as skipped, the Index is persisted, and no network request (indeed no
event other than the Index write) is issued for it. -/
theorem downloadStep_skip_existing :
    ∀ (net : String → Nat → Resp) (snapshot : List String) (st : DLState) (i : Nat) (r : FileRecord),
      st.index.get? i = some r →
      (r.filename ∈ st.fs ∨ r.filename ∈ snapshot) →
      downloadStep net snapshot st i =
        { st with index := setDownloaded st.index i
                , scount := st.scount + 1
                , trace := st.trace ++ [Ev.saveIndex] } ∧
      (setDownloaded st.index i).get? i = some { r with downloaded := true } := by
  intro net snapshot st i r hget hmem
  constructor
  · simp only [downloadStep, hget]
    rw [if_pos hmem]
  · exact setDownloaded_get? st.index i r hget

/-- Witness for C5: skipping a record whose file is in the snapshot. -/
theorem downloadStep_skip_existing_witness :
    downloadStep cnet ["a.pdf"] dlSt0 0 =
      { fs := [], index := [⟨"a.pdf", "u", true⟩], dcount := 0, scount := 1
      , fcount := 0, trace := [Ev.saveIndex] } ∧
    (setDownloaded dlSt0.index 0).get? 0 = some ⟨"a.pdf", "u", true⟩ :=
  downloadStep_skip_existing cnet ["a.pdf"] dlSt0 0 ⟨"a.pdf", "u", false⟩ rfl
    (Or.inr (by decide))

theorem tryDownload_allFail :
    ∀ (net : String → Nat → Resp) (url fn : String),
      (∀ a, 1 ≤ a → a ≤ DOWNLOAD_RETRIES → attemptFails (net url a) = true) →
      tryDownload net url fn DOWNLOAD_RETRIES 1 =
        (false, [Ev.netRequest url 1, Ev.sleepMs 2000, Ev.netRequest url 2, Ev.sleepMs 4000,
                 Ev.netRequest url 3, Ev.sleepMs 6000, Ev.netRequest url 4, Ev.sleepMs 8000,
                 Ev.netRequest url 5, Ev.sleepMs 10000]) := by
  intro net url fn h
  have h1 := h 1 (by decide) (by decide)
  have h2 := h 2 (by decide) (by decide)
  have h3 := h 3 (by decide) (by decide)
  have h4 := h 4 (by decide) (by decide)
  have h5 := h 5 (by decide) (by decide)
  simp [DOWNLOAD_RETRIES, tryDownload, h1, h2, h3, h4, h5]

/-- Claim C6: a record all of whose response attempts are poisoned (status
not 200 or an HTML content-type) is retried exactly `DOWNLOAD_RETRIES`
times with linear backoff (2000·attempt ms) between attempts; on
exhaustion the Index is unchanged (the flag stays false), the failure
count increases by one, no file is written, and the batch fold moves on
to the remaining records instead of aborting. -/
theorem downloadStep_retry_exhaustion :
    ∀ (net : String → Nat → Resp) (snapshot : List String) (st : DLState) (i : Nat) (r : FileRecord) (rest : List Nat),
      st.index.get? i = some r →
      r.filename ∉ st.fs →
      r.filename ∉ snapshot →
      (∀ a, 1 ≤ a → a ≤ DOWNLOAD_RETRIES → attemptFails (net r.url a) = true) →
      downloadStep net snapshot st i =
        { st with fcount := st.fcount + 1
                , trace := st.trace ++
                    [Ev.netRequest r.url 1, Ev.sleepMs 2000, Ev.netRequest r.url 2, Ev.sleepMs 4000,
                     Ev.netRequest r.url 3, Ev.sleepMs 6000, Ev.netRequest r.url 4, Ev.sleepMs 8000,
                     Ev.netRequest r.url 5, Ev.sleepMs 10000, Ev.saveIndex, Ev.sleepMs 300] } ∧
      (downloadStep net snapshot st i).index = st.index ∧
      dlFold net snapshot st (i :: rest) =
        dlFold net snapshot (downloadStep net snapshot st i) rest := by
  intro net snapshot st i r rest hget hfs hsnap hbad
  have hmain : downloadStep net snapshot st i =
      { st with fcount := st.fcount + 1
              , trace := st.trace ++
                  [Ev.netRequest r.url 1, Ev.sleepMs 2000, Ev.netRequest r.url 2, Ev.sleepMs 4000,
                   Ev.netRequest r.url 3, Ev.sleepMs 6000, Ev.netRequest r.url 4, Ev.sleepMs 8000,
                   Ev.netRequest r.url 5, Ev.sleepMs 10000, Ev.saveIndex, Ev.sleepMs 300] } := by
    have ht := tryDownload_allFail net r.url r.filename hbad
    simp only [downloadStep, hget]
    rw [if_neg (by rintro (h | h) <;> [exact hfs h; exact hsnap h])]
    rw [ht]
    simp
  exact ⟨hmain, by rw [hmain], rfl⟩

/-- Witness for C6: a record whose every attempt yields HTTP 403 with an
HTML body fails after five backed-off attempts and the batch continues. -/
theorem downloadStep_retry_exhaustion_witness :
    downloadStep net403 [] dlSt0 0 =
      { fs := [], index := cidxP, dcount := 0, scount := 0, fcount := 1
      , trace := [Ev.netRequest "u" 1, Ev.sleepMs 2000, Ev.netRequest "u" 2, Ev.sleepMs 4000,
                  Ev.netRequest "u" 3, Ev.sleepMs 6000, Ev.netRequest "u" 4, Ev.sleepMs 8000,
                  Ev.netRequest "u" 5, Ev.sleepMs 10000, Ev.saveIndex, Ev.sleepMs 300] } ∧
    (downloadStep net403 [] dlSt0 0).index = cidxP ∧
    dlFold net403 [] dlSt0 [0, 1] = dlFold net403 [] (downloadStep net403 [] dlSt0 0) [1] :=
  downloadStep_retry_exhaustion net403 [] dlSt0 0 ⟨"a.pdf", "u", false⟩ [1] rfl
    (by decide) (by decide) (fun a _ _ => rfl)

theorem processLinks_dup :
    ∀ (snapshot : List String) (batchSize : Option Nat) (href : String) (rest : List String) (acc : LinkAcc),
      lastSeg href ∈ acc.fileSet →
      processLinks snapshot batchSize (href :: rest) acc = processLinks snapshot batchSize rest acc := by
  intro snap bs href rest acc h
  simp only [processLinks]
  rw [if_pos h]

theorem linkAcc_extend_inv :
    ∀ (acc : LinkAcc) (x u : String) (b : Bool),
      (∀ f, f ∈ acc.fileSet ↔ f ∈ fileSetOf acc.index) →
      (fileSetOf acc.index).Nodup →
      x ∉ acc.fileSet →
      ((∀ f, f ∈ x :: acc.fileSet ↔ f ∈ fileSetOf (acc.index ++ [⟨x, u, b⟩])) ∧
       (fileSetOf (acc.index ++ [⟨x, u, b⟩])).Nodup) := by
  intro acc x u b hsync hnd hx
  have hxm : x ∉ fileSetOf acc.index := fun hc => hx ((hsync x).2 hc)
  constructor
  · intro f
    simp only [fileSetOf, List.map_append, List.map_cons, List.map_nil] at *
    simp only [List.mem_cons, List.mem_append, List.mem_singleton, hsync f]
    tauto
  · simp only [fileSetOf, List.map_append, List.map_cons, List.map_nil] at *
    simp [List.nodup_append, hnd, hxm]

theorem processLinks_inv :
    ∀ (snapshot : List String) (batchSize : Option Nat) (links : List String) (acc : LinkAcc),
      (∀ f, f ∈ acc.fileSet ↔ f ∈ fileSetOf acc.index) →
      (fileSetOf acc.index).Nodup →
      ((fileSetOf (processLinks snapshot batchSize links acc).index).Nodup ∧
       ∀ f, f ∈ (processLinks snapshot batchSize links acc).fileSet ↔
         f ∈ fileSetOf (processLinks snapshot batchSize links acc).index) := by
  intro snap bs links
  induction links with
  | nil => intro acc hsync hnd; exact ⟨hnd, hsync⟩
  | cons href rest ih =>
    intro acc hsync hnd
    by_cases hmem : lastSeg href ∈ acc.fileSet
    · rw [processLinks_dup snap bs href rest acc hmem]
      exact ih acc hsync hnd
    · have hext := linkAcc_extend_inv acc (lastSeg href) (mkUrl href)
        (decide (lastSeg href ∈ snap)) hsync hnd hmem
      simp only [processLinks]
      rw [if_neg hmem]
      by_cases hcap : capReached bs (acc.newFiles ++ [acc.index.length]).length = true
      · rw [if_pos hcap]
        exact ⟨hext.2, hext.1⟩
      · rw [if_neg hcap]
        exact ih _ hext.1 hext.2

theorem processLinks_prefix :
    ∀ (snapshot : List String) (batchSize : Option Nat) (links : List String) (acc : LinkAcc),
      ∃ seen, seen <+: links ∧
        processLinks snapshot batchSize links acc = processLinks snapshot none seen acc := by
  intro snap bs links
  induction links with
  | nil => intro acc; exact ⟨[], ⟨[], rfl⟩, rfl⟩
  | cons href rest ih =>
    intro acc
    by_cases hmem : lastSeg href ∈ acc.fileSet
    · obtain ⟨seen, ⟨t, ht⟩, he⟩ := ih acc
      refine ⟨href :: seen, ⟨t, by rw [List.cons_append, ht]⟩, ?_⟩
      rw [processLinks_dup snap bs href rest acc hmem,
          processLinks_dup snap none href seen acc hmem]
      exact he
    · by_cases hcap : capReached bs (acc.newFiles ++ [acc.index.length]).length = true
      · refine ⟨[href], ⟨rest, rfl⟩, ?_⟩
        simp only [processLinks]
        rw [if_neg hmem, if_pos hcap, if_neg hmem,
            if_neg (by simp [capReached] : ¬ capReached none (acc.newFiles ++ [acc.index.length]).length = true)]
      · obtain ⟨seen, ⟨t, ht⟩, he⟩ := ih
          ⟨acc.index ++ [⟨lastSeg href, mkUrl href, decide (lastSeg href ∈ snap)⟩]
          , lastSeg href :: acc.fileSet
          , acc.newFiles ++ [acc.index.length]
          , acc.pageNew ++ [acc.index.length]⟩
        refine ⟨href :: seen, ⟨t, by rw [List.cons_append, ht]⟩, ?_⟩
        simp only [processLinks]
        rw [if_neg hmem, if_neg hcap, if_neg hmem,
            if_neg (by simp [capReached] : ¬ capReached none (acc.newFiles ++ [acc.index.length]).length = true)]
        exact he

theorem processLinks_none_length :
    ∀ (snapshot : List String) (links : List String) (acc : LinkAcc),
      (∀ f, f ∈ acc.fileSet ↔ f ∈ fileSetOf acc.index) →
      (fileSetOf acc.index).Nodup →
      (processLinks snapshot none links acc).index.length =
        (fileSetOf acc.index ++ links.map lastSeg).toFinset.card := by
  intro snap links
  induction links with
  | nil =>
    intro acc hsync hnd
    have h1 : (fileSetOf acc.index).toFinset.card = (fileSetOf acc.index).length :=
      List.toFinset_card_of_nodup hnd
    simp only [processLinks, List.map_nil, List.append_nil]
    rw [h1]
    simp [fileSetOf]
  | cons href rest ih =>
    intro acc hsync hnd
    by_cases hmem : lastSeg href ∈ acc.fileSet
    · rw [processLinks_dup snap none href rest acc hmem, ih acc hsync hnd]
      have hx : lastSeg href ∈ fileSetOf acc.index := (hsync _).1 hmem
      rw [List.map_cons, List.toFinset_append, List.toFinset_append, List.toFinset_cons,
          Finset.union_insert,
          Finset.insert_eq_of_mem (Finset.mem_union_left _ (List.mem_toFinset.2 hx))]
    · have hext := linkAcc_extend_inv acc (lastSeg href) (mkUrl href)
        (decide (lastSeg href ∈ snap)) hsync hnd hmem
      simp only [processLinks]
      rw [if_neg hmem,
          if_neg (by simp [capReached] : ¬ capReached none (acc.newFiles ++ [acc.index.length]).length = true)]
      rw [ih _ hext.1 hext.2]
      congr 1
      ext y
      simp only [fileSetOf, List.map_append, List.map_cons, List.map_nil, List.mem_toFinset,
        List.mem_append, List.mem_cons, List.mem_singleton, List.not_mem_nil, or_false]
      tauto

/-- Claim C2: over any sequence of discovered references, processing keeps
at most one record per identity (the identity list of the Index stays
duplicate-free and in sync with `file_set`), a reference whose identity
was already seen is silently dropped, and the Index length equals the
number of distinct identities among the initial ones and those of the
processed (seen) prefix of the sequence. -/
theorem processLinks_dedup_invariant :
    ∀ (snapshot : List String) (batchSize : Option Nat) (links : List String) (acc : LinkAcc),
      (∀ f, f ∈ acc.fileSet ↔ f ∈ fileSetOf acc.index) →
      (fileSetOf acc.index).Nodup →
      ((fileSetOf (processLinks snapshot batchSize links acc).index).Nodup ∧
       (∀ f, f ∈ (processLinks snapshot batchSize links acc).fileSet ↔
          f ∈ fileSetOf (processLinks snapshot batchSize links acc).index) ∧
       (∀ href rest2, lastSeg href ∈ acc.fileSet →
          processLinks snapshot batchSize (href :: rest2) acc =
            processLinks snapshot batchSize rest2 acc) ∧
       ∃ seen, seen <+: links ∧
         processLinks snapshot batchSize links acc = processLinks snapshot none seen acc ∧
         (processLinks snapshot batchSize links acc).index.length =
           (fileSetOf acc.index ++ seen.map lastSeg).toFinset.card) := by
  intro snap bs links acc hsync hnd
  obtain ⟨hn, hs⟩ := processLinks_inv snap bs links acc hsync hnd
  obtain ⟨seen, hp, he⟩ := processLinks_prefix snap bs links acc
  refine ⟨hn, hs, fun href rest2 h => processLinks_dup snap bs href rest2 acc h,
    seen, hp, he, ?_⟩
  rw [he, processLinks_none_length snap seen acc hsync hnd]

/-- Witness for C2 (Scenario A of the spec): two references to the same
file on one page yield exactly one Index record. -/
theorem processLinks_dedup_invariant_witness :
    (fileSetOf (processLinks [] none cl2 ⟨[], [], [], []⟩).index).Nodup ∧
    (processLinks [] none cl2 ⟨[], [], [], []⟩).index.length = 1 :=
  ⟨(processLinks_dedup_invariant [] none cl2 ⟨[], [], [], []⟩
      (by simp [fileSetOf]) (by simp [fileSetOf])).1,
   by decide⟩

theorem dedupGo_not_mem_seen :
    ∀ (l seen : List String) (a : String), a ∈ dedupGo seen l → a ∉ seen := by
  intro l
  induction l with
  | nil => intro seen a ha; simp [dedupGo] at ha
  | cons x xs ih =>
    intro seen a ha
    simp only [dedupGo] at ha
    by_cases hx : x ∈ seen
    · rw [if_pos hx] at ha
      exact ih seen a ha
    · rw [if_neg hx] at ha
      rcases List.mem_cons.1 ha with rfl | ha
      · exact hx
      · intro hc
        exact ih (x :: seen) a ha (List.mem_cons_of_mem x hc)

theorem dedupGo_nodup : ∀ (l seen : List String), (dedupGo seen l).Nodup := by
  intro l
  induction l with
  | nil => intro seen; simp [dedupGo]
  | cons x xs ih =>
    intro seen
    simp only [dedupGo]
    by_cases hx : x ∈ seen
    · rw [if_pos hx]; exact ih seen
    · rw [if_neg hx]
      exact List.nodup_cons.2
        ⟨fun hc => dedupGo_not_mem_seen xs (x :: seen) x hc (List.mem_cons_self x seen),
         ih (x :: seen)⟩

theorem dedupGo_sublist : ∀ (l seen : List String), List.Sublist (dedupGo seen l) l := by
  intro l
  induction l with
  | nil => intro seen; simp [dedupGo]
  | cons x xs ih =>
    intro seen
    simp only [dedupGo]
    by_cases hx : x ∈ seen
    · rw [if_pos hx]; exact (ih seen).cons x
    · rw [if_neg hx]; exact (ih (x :: seen)).cons₂ x

theorem matchAt_good :
    ∀ (s : List Char) (p : List Char × List Char), matchAt s = some p → goodContent p.1 = true := by
  intro s p h
  unfold matchAt at h
  split at h
  · split at h
    · exact absurd h (by simp)
    · split at h
      · cases h
        assumption
      · exact absurd h (by simp)
  · exact absurd h (by simp)

theorem scanAux_good :
    ∀ (fuel : Nat) (s : List Char) (x : List Char), x ∈ scanAux fuel s → goodContent x = true := by
  intro fuel
  induction fuel with
  | zero => intro s x hx; simp [scanAux] at hx
  | succ n ih =>
    intro s x hx
    cases s with
    | nil => simp [scanAux] at hx
    | cons c cs =>
      simp only [scanAux] at hx
      cases hm : matchAt (c :: cs) with
      | none => rw [hm] at hx; exact ih cs x hx
      | some p =>
        obtain ⟨c1, r1⟩ := p
        rw [hm] at hx
        rcases List.mem_cons.1 hx with rfl | hx
        · exact matchAt_good (c :: cs) (x, r1) hm
        · exact ih r1 x hx

theorem extract_good :
    ∀ (html : List Char) (x : String),
      x ∈ extract_links_from_html html → goodContent x.toList = true := by
  intro html x hx
  have hmem : x ∈ (scanAux html.length html).map String.mk :=
    (dedupGo_sublist _ []).mem hx
  obtain ⟨l, hl, rfl⟩ := List.mem_map.1 hmem
  exact scanAux_good html.length html l hl

/-- Counterexample to C7 as stated: under the structural (anchor-element)
strategy the result is neither deduplicated nor filtered to the target
extension — duplicate anchors are returned twice, and a reference ending
in `.txt` is returned although it does not match the file-reference
pattern. -/
theorem collect_structural_counterexample :
    collect_links_from_page cl2 [] = cl2 ∧
    ¬ (collect_links_from_page cl2 []).Nodup ∧
    collect_links_from_page clTxt [] = clTxt ∧
    endsWithPdf "/epstein/files/x.txt".toList = false :=
  ⟨by decide, by decide, by decide, by decide⟩

/-- Claim C7 (amended): the fallback raw-markup strategy returns a
deduplicated, order-preserving (a sublist of the scan of the markup)
sequence whose every element matches the file-reference pattern, and the
empty markup yields the empty sequence; extraction is a total function,
so it cannot raise.  The structural strategy, however, returns the
non-empty anchor hrefs verbatim (no dedup, no extension filter) whenever
there is at least one. -/
theorem extract_links_spec :
    ∀ (html : List Char) (domLinks : List String),
      (extract_links_from_html html).Nodup ∧
      List.Sublist (extract_links_from_html html) ((scanAux html.length html).map String.mk) ∧
      (∀ x, x ∈ extract_links_from_html html → goodContent x.toList = true) ∧
      extract_links_from_html [] = [] ∧
      (domLinks.filter (fun h => h ≠ "") ≠ [] →
        collect_links_from_page domLinks html = domLinks.filter (fun h => h ≠ "")) := by
  intro html domLinks
  refine ⟨dedupGo_nodup _ [], dedupGo_sublist _ [], extract_good html, rfl, ?_⟩
  intro hne
  have hie : (domLinks.filter (fun h => h ≠ "")).isEmpty = false := by
    cases hfe : domLinks.filter (fun h => h ≠ "") with
    | nil => exact absurd hfe hne
    | cons a l => rfl
  simp only [collect_links_from_page, hie, Bool.false_eq_true, if_false]

/-- Witness for C7 (amended): extraction of a one-anchor markup is
duplicate-free, and the structural strategy passes a non-empty anchor
list through. -/
theorem extract_links_spec_witness :
    (extract_links_from_html htmlA).Nodup ∧
    collect_links_from_page ["/epstein/files/abc.pdf"] [] = ["/epstein/files/abc.pdf"] :=
  ⟨(extract_links_spec htmlA ["/epstein/files/abc.pdf"]).1,
   ((extract_links_spec htmlA ["/epstein/files/abc.pdf"]).2.2.2.2 (by decide)).trans (by decide)⟩

theorem mono_refl : ∀ (a : List FileRecord), DownloadedMono a a :=
  fun _ _ h => h

theorem mono_trans :
    ∀ {a b c : List FileRecord}, DownloadedMono a b → DownloadedMono b c → DownloadedMono a c :=
  fun h1 h2 name h => h2 name (h1 name h)

theorem findRec_cons :
    ∀ (r : FileRecord) (t : List FileRecord) (name : String),
      findRec (r :: t) name = if r.filename == name then some r else findRec t name := by
  intro r t name
  unfold findRec
  by_cases hp : (r.filename == name) = true
  · rw [if_pos hp]
    exact @List.find?_cons_of_pos FileRecord (fun x => x.filename == name) r t hp
  · rw [if_neg hp]
    exact @List.find?_cons_of_neg FileRecord (fun x => x.filename == name) r t hp

theorem findRec_cons_set :
    ∀ (r : FileRecord) (t : List FileRecord) (name : String),
      findRec ({ r with downloaded := true } :: t) name =
        if r.filename == name then some { r with downloaded := true } else findRec t name := by
  intro r t name
  unfold findRec
  by_cases hp : (r.filename == name) = true
  · rw [if_pos hp]
    exact @List.find?_cons_of_pos FileRecord (fun x => x.filename == name)
      { r with downloaded := true } t hp
  · rw [if_neg hp]
    exact @List.find?_cons_of_neg FileRecord (fun x => x.filename == name)
      { r with downloaded := true } t hp

theorem mono_append : ∀ (a ext : List FileRecord), DownloadedMono a (a ++ ext) := by
  intro a ext name h
  unfold findRec at h ⊢
  rw [List.find?_append]
  cases hf : a.find? (fun r => r.filename == name) with
  | none => rw [hf] at h; simp at h
  | some r =>
    rw [hf] at h
    simpa using h

theorem mono_setDownloaded : ∀ (a : List FileRecord) (i : Nat), DownloadedMono a (setDownloaded a i) := by
  intro a
  induction a with
  | nil => intro i name h; simpa [setDownloaded] using h
  | cons r t ih =>
    intro i name h
    rw [findRec_cons] at h
    cases i with
    | zero =>
      rw [show setDownloaded (r :: t) 0 = { r with downloaded := true } :: t from rfl,
          findRec_cons_set]
      by_cases hp : (r.filename == name) = true
      · rw [if_pos hp]
        simp
      · rw [if_neg hp] at h
        rw [if_neg hp]
        exact h
    | succ n =>
      rw [show setDownloaded (r :: t) (n + 1) = r :: setDownloaded t n from rfl,
          findRec_cons]
      by_cases hp : (r.filename == name) = true
      · rw [if_pos hp] at h
        rw [if_pos hp]
        exact h
      · rw [if_neg hp] at h
        rw [if_neg hp]
        exact ih n name h

theorem mono_downloadStep :
    ∀ (net : String → Nat → Resp) (snap : List String) (st : DLState) (i : Nat),
      DownloadedMono st.index (downloadStep net snap st i).index := by
  intro net snap st i
  cases hg : st.index.get? i with
  | none => simp only [downloadStep, hg]; exact mono_refl _
  | some r =>
    simp only [downloadStep, hg]
    by_cases hmem : r.filename ∈ st.fs ∨ r.filename ∈ snap
    · rw [if_pos hmem]; exact mono_setDownloaded st.index i
    · rw [if_neg hmem]
      by_cases hatt : (tryDownload net r.url r.filename DOWNLOAD_RETRIES 1).1 = true
      · rw [if_pos hatt]; exact mono_setDownloaded st.index i
      · rw [if_neg hatt]; exact mono_refl _

theorem mono_dlFold :
    ∀ (net : String → Nat → Resp) (snap : List String) (batch : List Nat) (st : DLState),
      DownloadedMono st.index (dlFold net snap st batch).index := by
  intro net snap batch
  induction batch with
  | nil => intro st; exact mono_refl _
  | cons i rest ih =>
    intro st
    exact mono_trans (mono_downloadStep net snap st i) (ih (downloadStep net snap st i))

theorem mono_download_batch :
    ∀ (net : String → Nat → Resp) (fs : List String) (batch : List Nat) (index : List FileRecord),
      DownloadedMono index (download_batch net fs batch index).index := by
  intro net fs batch index
  cases batch with
  | nil => exact mono_refl _
  | cons i rest =>
    exact mono_dlFold net fs (i :: rest)
      ⟨fs, index, 0, 0, 0, [Ev.mkdirOutput, Ev.launchBrowser, Ev.pageFetch 0]⟩

theorem mono_processLinks :
    ∀ (snap : List String) (bs : Option Nat) (links : List String) (acc : LinkAcc),
      DownloadedMono acc.index (processLinks snap bs links acc).index := by
  intro snap bs links
  induction links with
  | nil => intro acc; exact mono_refl _
  | cons href rest ih =>
    intro acc
    by_cases hmem : lastSeg href ∈ acc.fileSet
    · rw [processLinks_dup snap bs href rest acc hmem]; exact ih acc
    · simp only [processLinks]
      rw [if_neg hmem]
      by_cases hcap : capReached bs (acc.newFiles ++ [acc.index.length]).length = true
      · rw [if_pos hcap]; exact mono_append acc.index _
      · rw [if_neg hcap]
        exact mono_trans
          (mono_append acc.index
            [⟨lastSeg href, mkUrl href, decide (lastSeg href ∈ snap)⟩])
          (ih ⟨acc.index ++ [⟨lastSeg href, mkUrl href, decide (lastSeg href ∈ snap)⟩]
            , lastSeg href :: acc.fileSet
            , acc.newFiles ++ [acc.index.length]
            , acc.pageNew ++ [acc.index.length]⟩)

theorem mono_scrapeLoop :
    ∀ (world : Nat → PageView) (net : String → Nat → Resp) (bs : Option Nat) (snap : List String)
      (fuel pos : Nat) (st : ScrapeState),
      DownloadedMono st.index (scrapeLoop world net bs snap fuel pos st).index := by
  intro world net bs snap fuel
  induction fuel with
  | zero => intro pos st; exact mono_refl _
  | succ n ih =>
    intro pos st
    simp only [scrapeLoop]
    by_cases hcap : capReached bs st.newFiles.length = true
    · rw [if_pos hcap]; exact mono_refl _
    · rw [if_neg hcap]
      by_cases hden : is_access_denied (world pos).html = true
      · rw [if_pos hden]; exact mono_refl _
      · rw [if_neg hden]
        by_cases hle : (collect_links_from_page (world pos).domLinks (world pos).html).isEmpty = true
        · rw [if_pos hle]; exact mono_refl _
        · rw [if_neg hle]
          by_cases hpn : (processLinks snap bs (collect_links_from_page (world pos).domLinks (world pos).html) ⟨st.index, st.fileSet, st.newFiles, []⟩).pageNew.isEmpty = true
          · rw [if_pos hpn]
            by_cases hnx : (world pos).hasNext = true
            · rw [if_pos hnx]
              refine mono_trans ?_ (ih (pos + 1) _)
              exact mono_processLinks snap bs
                (collect_links_from_page (world pos).domLinks (world pos).html)
                ⟨st.index, st.fileSet, st.newFiles, []⟩
            · rw [if_neg hnx]
              exact mono_processLinks snap bs
                (collect_links_from_page (world pos).domLinks (world pos).html)
                ⟨st.index, st.fileSet, st.newFiles, []⟩
          · rw [if_neg hpn]
            by_cases hnx : (world pos).hasNext = true
            · rw [if_pos hnx]
              refine mono_trans ?_ (ih (pos + 1) _)
              exact mono_trans
                (mono_processLinks snap bs
                  (collect_links_from_page (world pos).domLinks (world pos).html)
                  ⟨st.index, st.fileSet, st.newFiles, []⟩)
                (mono_download_batch net st.fs
                  (processLinks snap bs
                    (collect_links_from_page (world pos).domLinks (world pos).html)
                    ⟨st.index, st.fileSet, st.newFiles, []⟩).pageNew
                  (processLinks snap bs
                    (collect_links_from_page (world pos).domLinks (world pos).html)
                    ⟨st.index, st.fileSet, st.newFiles, []⟩).index)
            · rw [if_neg hnx]
              exact mono_trans
                (mono_processLinks snap bs
                  (collect_links_from_page (world pos).domLinks (world pos).html)
                  ⟨st.index, st.fileSet, st.newFiles, []⟩)
                (mono_download_batch net st.fs
                  (processLinks snap bs
                    (collect_links_from_page (world pos).domLinks (world pos).html)
                    ⟨st.index, st.fileSet, st.newFiles, []⟩).pageNew
                  (processLinks snap bs
                    (collect_links_from_page (world pos).domLinks (world pos).html)
                    ⟨st.index, st.fileSet, st.newFiles, []⟩).index)

theorem mono_scrape :
    ∀ (world : Nat → PageView) (net : String → Nat → Resp) (bs : Option Nat) (fuel : Nat)
      (index : List FileRecord) (fset : List String) (sp : Nat) (fs : List String),
      DownloadedMono index (scrape_pages_for_batch world net bs fuel index fset sp fs).index := by
  intro world net bs fuel index fset sp fs
  exact mono_scrapeLoop world net bs fs fuel (resumeLoop world 0 sp).1
    ⟨index, fset, sp, fs, []
    , [Ev.launchBrowser, Ev.pageFetch 0, Ev.pageFetch 0] ++ (resumeLoop world 0 sp).2⟩

theorem mono_autoLoop :
    ∀ (world : Nat → PageView) (net : String → Nat → Resp) (bs : Option Nat) (fuel : Nat)
      (st : AutoState),
      DownloadedMono st.index (autoLoop world net bs fuel st).index := by
  intro world net bs fuel
  induction fuel with
  | zero => intro st; exact mono_refl _
  | succ n ih =>
    intro st
    simp only [autoLoop]
    split
    · split
      · exact mono_scrape world net bs (n + 1) st.index st.fileSet st.statePage st.fs
      · split
        · exact mono_trans
            (mono_scrape world net bs (n + 1) st.index st.fileSet st.statePage st.fs)
            (mono_download_batch net _ _ _)
        · refine mono_trans ?_ (ih _)
          exact mono_trans
            (mono_scrape world net bs (n + 1) st.index st.fileSet st.statePage st.fs)
            (mono_download_batch net _ _ _)
    · split
      · exact mono_download_batch net st.fs _ st.index
      · refine mono_trans ?_ (ih _)
        exact mono_download_batch net st.fs _ st.index

/-- Claim C3: the `downloaded` flag is monotone over a whole auto run —
for any identity whose Index record is observed downloaded at the start,
the record observed for that identity after the run (through scraping,
downloading, skipping and failing) is still downloaded; no operation
resets the flag to false. -/
theorem downloaded_monotone_auto :
    ∀ (world : Nat → PageView) (net : String → Nat → Resp) (batchSize : Option Nat) (fuel : Nat)
      (index : List FileRecord) (statePage : Nat) (fs : List String) (name : String),
      (findRec index name).map FileRecord.downloaded = some true →
      (findRec (auto_scrape_and_download world net batchSize fuel index statePage fs).index
        name).map FileRecord.downloaded = some true := by
  intro world net batchSize fuel index statePage fs name h
  exact mono_autoLoop world net batchSize fuel ⟨index, fileSetOf index, statePage, fs, []⟩ name h

/-- Witness for C3: the already-downloaded record of a completed Index is
still downloaded after a full re-run. -/
theorem downloaded_monotone_auto_witness :
    (findRec (auto_scrape_and_download cw1 cnet none 3 cidx1 1 ["a.pdf"]).index
      "a.pdf").map FileRecord.downloaded = some true :=
  downloaded_monotone_auto cw1 cnet none 3 cidx1 1 ["a.pdf"] "a.pdf" (by decide)

theorem saveState_not_mem_debugEvs :
    ∀ (html : List Char) (p n : Nat), Ev.saveState n ∉ debugEvs html p := by
  intro html p n
  unfold debugEvs
  split
  · simp
  · simp

theorem resumeLoop_no_saveState :
    ∀ (world : Nat → PageView) (r c n : Nat), Ev.saveState n ∉ (resumeLoop world c r).2 := by
  intro world r
  induction r with
  | zero => intro c n; simp [resumeLoop]
  | succ m ih =>
    intro c n
    simp only [resumeLoop]
    split
    · intro hc
      rcases List.mem_cons.1 hc with h | h
      · simp at h
      · exact ih (c + 1) n h
    · simp

theorem tryDownload_no_saveState :
    ∀ (net : String → Nat → Resp) (url fn : String) (k a n : Nat),
      Ev.saveState n ∉ (tryDownload net url fn k a).2 := by
  intro net url fn k
  induction k with
  | zero => intro a n; simp [tryDownload]
  | succ m ih =>
    intro a n
    simp only [tryDownload]
    split
    · intro hc
      rcases List.mem_cons.1 hc with h | h
      · simp at h
      · rcases List.mem_cons.1 h with h2 | h2
        · simp at h2
        · exact ih (a + 1) n h2
    · simp

theorem downloadStep_saveState :
    ∀ (net : String → Nat → Resp) (snap : List String) (st : DLState) (i n : Nat),
      Ev.saveState n ∈ (downloadStep net snap st i).trace → Ev.saveState n ∈ st.trace := by
  intro net snap st i n
  rcases hg : st.index.get? i with _ | r
  · intro h
    simp only [downloadStep, hg] at h
    exact h
  · intro h
    simp only [downloadStep, hg] at h
    split at h
    · rcases List.mem_append.1 h with h2 | h2
      · exact h2
      · simp at h2
    · split at h
      · rcases List.mem_append.1 h with h2 | h2
        · rcases List.mem_append.1 h2 with h3 | h3
          · exact h3
          · exact absurd h3 (tryDownload_no_saveState net r.url r.filename DOWNLOAD_RETRIES 1 n)
        · simp at h2
      · rcases List.mem_append.1 h with h2 | h2
        · rcases List.mem_append.1 h2 with h3 | h3
          · exact h3
          · exact absurd h3 (tryDownload_no_saveState net r.url r.filename DOWNLOAD_RETRIES 1 n)
        · simp at h2

theorem dlFold_saveState :
    ∀ (net : String → Nat → Resp) (snap : List String) (batch : List Nat) (st : DLState) (n : Nat),
      Ev.saveState n ∈ (dlFold net snap st batch).trace → Ev.saveState n ∈ st.trace := by
  intro net snap batch
  induction batch with
  | nil => intro st n h; exact h
  | cons i rest ih =>
    intro st n h
    exact downloadStep_saveState net snap st i n (ih (downloadStep net snap st i) n h)

theorem download_batch_no_saveState :
    ∀ (net : String → Nat → Resp) (fs : List String) (batch : List Nat) (index : List FileRecord) (n : Nat),
      Ev.saveState n ∉ (download_batch net fs batch index).trace := by
  intro net fs batch index n
  cases batch with
  | nil => simp [download_batch]
  | cons i rest =>
    intro hc
    have h2 := dlFold_saveState net fs (i :: rest)
      ⟨fs, index, 0, 0, 0, [Ev.mkdirOutput, Ev.launchBrowser, Ev.pageFetch 0]⟩ n hc
    simp at h2

theorem scrapeLoop_saveState_lower :
    ∀ (world : Nat → PageView) (net : String → Nat → Resp) (bs : Option Nat) (snap : List String)
      (fuel pos : Nat) (st : ScrapeState) (n : Nat),
      Ev.saveState n ∈ (scrapeLoop world net bs snap fuel pos st).trace →
      Ev.saveState n ∈ st.trace ∨ pos < n := by
  intro world net bs snap fuel
  induction fuel with
  | zero => intro pos st n h; exact Or.inl h
  | succ m ih =>
    intro pos st n h
    simp only [scrapeLoop] at h
    by_cases hcap : capReached bs st.newFiles.length = true
    · rw [if_pos hcap] at h; exact Or.inl h
    · rw [if_neg hcap] at h
      by_cases hden : is_access_denied (world pos).html = true
      · rw [if_pos hden] at h
        rcases List.mem_append.1 h with h2 | h2
        · exact Or.inl h2
        · exact absurd h2 (saveState_not_mem_debugEvs _ pos n)
      · rw [if_neg hden] at h
        by_cases hle : (collect_links_from_page (world pos).domLinks (world pos).html).isEmpty = true
        · rw [if_pos hle] at h
          rcases List.mem_append.1 h with h2 | h2
          · exact Or.inl h2
          · exact absurd h2 (saveState_not_mem_debugEvs _ pos n)
        · rw [if_neg hle] at h
          by_cases hpn : (processLinks snap bs (collect_links_from_page (world pos).domLinks (world pos).html) ⟨st.index, st.fileSet, st.newFiles, []⟩).pageNew.isEmpty = true
          · rw [if_pos hpn] at h
            by_cases hnx : (world pos).hasNext = true
            · rw [if_pos hnx] at h
              rcases ih (pos + 1) _ n h with h2 | h2
              · replace h2 : Ev.saveState n ∈
                    (st.trace ++ [Ev.saveState (pos + 1), Ev.saveIndex])
                      ++ [Ev.pageFetch (pos + 1), Ev.sleepMs 800] := h2
                rcases List.mem_append.1 h2 with h3 | h3
                · rcases List.mem_append.1 h3 with h4 | h4
                  · exact Or.inl h4
                  · rcases List.mem_cons.1 h4 with h5 | h5
                    · simp only [Ev.saveState.injEq] at h5
                      exact Or.inr (by omega)
                    · simp at h5
                · simp at h3
              · exact Or.inr (Nat.lt_of_succ_lt h2)
            · rw [if_neg hnx] at h
              replace h : Ev.saveState n ∈ st.trace ++ [Ev.saveState (pos + 1), Ev.saveIndex] := h
              rcases List.mem_append.1 h with h3 | h3
              · exact Or.inl h3
              · rcases List.mem_cons.1 h3 with h5 | h5
                · simp only [Ev.saveState.injEq] at h5
                  exact Or.inr (by omega)
                · simp at h5
          · rw [if_neg hpn] at h
            by_cases hnx : (world pos).hasNext = true
            · rw [if_pos hnx] at h
              rcases ih (pos + 1) _ n h with h2 | h2
              · replace h2 : Ev.saveState n ∈
                    (((st.trace ++ (download_batch net st.fs
                        (processLinks snap bs (collect_links_from_page (world pos).domLinks (world pos).html)
                          ⟨st.index, st.fileSet, st.newFiles, []⟩).pageNew
                        (processLinks snap bs (collect_links_from_page (world pos).domLinks (world pos).html)
                          ⟨st.index, st.fileSet, st.newFiles, []⟩).index).trace)
                      ++ [Ev.saveIndex])
                      ++ [Ev.saveState (pos + 1), Ev.saveIndex])
                      ++ [Ev.pageFetch (pos + 1), Ev.sleepMs 800] := h2
                rcases List.mem_append.1 h2 with h3 | h3
                · rcases List.mem_append.1 h3 with h4 | h4
                  · rcases List.mem_append.1 h4 with h6 | h6
                    · rcases List.mem_append.1 h6 with h7 | h7
                      · exact Or.inl h7
                      · exact absurd h7 (download_batch_no_saveState net st.fs _ _ n)
                    · simp at h6
                  · rcases List.mem_cons.1 h4 with h5 | h5
                    · simp only [Ev.saveState.injEq] at h5
                      exact Or.inr (by omega)
                    · simp at h5
                · simp at h3
              · exact Or.inr (Nat.lt_of_succ_lt h2)
            · rw [if_neg hnx] at h
              replace h : Ev.saveState n ∈
                  ((st.trace ++ (download_batch net st.fs
                      (processLinks snap bs (collect_links_from_page (world pos).domLinks (world pos).html)
                        ⟨st.index, st.fileSet, st.newFiles, []⟩).pageNew
                      (processLinks snap bs (collect_links_from_page (world pos).domLinks (world pos).html)
                        ⟨st.index, st.fileSet, st.newFiles, []⟩).index).trace)
                    ++ [Ev.saveIndex])
                    ++ [Ev.saveState (pos + 1), Ev.saveIndex] := h
              rcases List.mem_append.1 h with h3 | h3
              · rcases List.mem_append.1 h3 with h4 | h4
                · rcases List.mem_append.1 h4 with h6 | h6
                  · exact Or.inl h6
                  · exact absurd h6 (download_batch_no_saveState net st.fs _ _ n)
                · simp at h4
              · rcases List.mem_cons.1 h3 with h5 | h5
                · simp only [Ev.saveState.injEq] at h5
                  exact Or.inr (by omega)
                · simp at h5

theorem resumeLoop_complete :
    ∀ (world : Nat → PageView) (r c : Nat),
      (∀ k, k < r → (world (c + k)).hasNext = true) →
      (resumeLoop world c r).1 = c + r := by
  intro world r
  induction r with
  | zero => intro c _; simp [resumeLoop]
  | succ m ih =>
    intro c h
    simp only [resumeLoop]
    rw [if_pos (by simpa using h 0 (Nat.succ_pos m))]
    have h2 := ih (c + 1) (fun k hk => by
      have h3 := h (k + 1) (by omega)
      rw [show c + 1 + k = c + (k + 1) from by omega]
      exact h3)
    rw [h2]
    omega

/-- Counterexample to C4 as stated: with the persisted Cursor at page 2
and the next-page control missing during the resume phase, the round
re-scrapes from page 0 and writes the Cursor value 1 < 2. -/
theorem cursor_regression_counterexample :
    Ev.saveState 1 ∈ (scrape_pages_for_batch cw1 cnet none 3 cidx1 ["a.pdf"] 2 ["a.pdf"]).trace ∧
    ¬ 2 ≤ 1 :=
  ⟨by decide, by decide⟩

/-- Claim C4 (amended): when the resume-to-cursor phase can reach the
persisted page `N` (a next-page control is present on every page below
`N`), every Cursor value subsequently written by the Navigator round is
at least `N`; when the resume phase ends early, writes restart from the
reached page and may be smaller. -/
theorem cursor_monotone_when_resume_reaches :
    ∀ (world : Nat → PageView) (net : String → Nat → Resp) (batchSize : Option Nat) (fuel : Nat)
      (index : List FileRecord) (fileSet : List String) (statePage : Nat) (fs : List String) (n : Nat),
      (∀ p, p < statePage → (world p).hasNext = true) →
      Ev.saveState n ∈ (scrape_pages_for_batch world net batchSize fuel index fileSet statePage fs).trace →
      statePage ≤ n := by
  intro world net bs fuel index fset sp fs n hres h
  simp only [scrape_pages_for_batch] at h
  have hr1 : (resumeLoop world 0 sp).1 = sp := by
    have h0 := resumeLoop_complete world sp 0 (fun k hk => by
      have h3 := hres k hk
      simpa using h3)
    simpa using h0
  rw [hr1] at h
  rcases scrapeLoop_saveState_lower world net bs fs fuel sp _ n h with h2 | h2
  · replace h2 : Ev.saveState n ∈
        [Ev.launchBrowser, Ev.pageFetch 0, Ev.pageFetch 0] ++ (resumeLoop world 0 sp).2 := h2
    rcases List.mem_append.1 h2 with h3 | h3
    · simp at h3
    · exact absurd h3 (resumeLoop_no_saveState world sp 0 n)
  · omega

/-- Witness for C4 (amended): with the control present below the cursor,
the one Cursor write of the round (value 2) is at least the resume
target 1. -/
theorem cursor_monotone_witness :
    Ev.saveState 2 ∈ (scrape_pages_for_batch cw4b cnet none 3 cidx1 ["a.pdf"] 1 ["a.pdf"]).trace ∧
    1 ≤ 2 :=
  ⟨by decide,
   cursor_monotone_when_resume_reaches cw4b cnet none 3 cidx1 ["a.pdf"] 1 ["a.pdf"] 2
     (by decide) (by decide)⟩

/-- Counterexample to C9 as stated: a page whose markup is empty yields
zero links, yet no debug snapshot is written (`_save_debug_html` returns
without writing when the markup is falsy). -/
theorem no_links_snapshot_counterexample :
    collect_links_from_page (cw9 0).domLinks (cw9 0).html = [] ∧
    (scrape_pages_for_batch cw9 cnet none 3 [] [] 0 []).trace.countP isDebugWrite = 0 :=
  ⟨by decide, by decide⟩

/-- Claim C9 (amended): when a page's markup is not blocked and yields
zero extracted links, the round stops at that page with the state
otherwise unchanged: the Cursor is not advanced, nothing further is
fetched or retried in that invocation, and a debug snapshot named by the
page number is written exactly when the markup is non-empty. -/
theorem scrapeLoop_no_links_stops :
    ∀ (world : Nat → PageView) (net : String → Nat → Resp) (batchSize : Option Nat)
      (snapshot : List String) (fuel pos : Nat) (st : ScrapeState),
      capReached batchSize st.newFiles.length = false →
      is_access_denied (world pos).html = false →
      collect_links_from_page (world pos).domLinks (world pos).html = [] →
      scrapeLoop world net batchSize snapshot (fuel + 1) pos st =
        { st with trace := st.trace ++ debugEvs (world pos).html pos } := by
  intro world net bs snap fuel pos st hcap hden hlinks
  simp only [scrapeLoop]
  rw [if_neg (by simp [hcap]), if_neg (by simp [hden]), if_pos (by simp [hlinks])]

/-- Witness for C9 (amended): a page with markup but no file references
stops the round and writes exactly the debug snapshot for page 0. -/
theorem scrapeLoop_no_links_stops_witness :
    scrapeLoop cwNL cnet none [] 1 0 ⟨[], [], 0, [], [], []⟩ =
      { index := [], fileSet := [], nextPage := 0, fs := [], newFiles := []
      , trace := [Ev.debugWrite 0] } :=
  scrapeLoop_no_links_stops cwNL cnet none [] 0 0 ⟨[], [], 0, [], [], []⟩ rfl
    (by decide) (by decide)

theorem processLinks_id :
    ∀ (snap : List String) (bs : Option Nat) (links : List String) (acc : LinkAcc),
      (∀ h2 ∈ links, lastSeg h2 ∈ acc.fileSet) → processLinks snap bs links acc = acc := by
  intro snap bs links
  induction links with
  | nil => intro acc _; rfl
  | cons href rest ih =>
    intro acc hall
    rw [processLinks_dup snap bs href rest acc (hall href (List.mem_cons_self href rest))]
    exact ih acc (fun x hx => hall x (List.mem_cons_of_mem href hx))

theorem resumeLoop_clean :
    ∀ (world : Nat → PageView) (r c : Nat) (e : Ev), e ∈ (resumeLoop world c r).2 →
      isNetRequest e = false ∧ isFileWriteEv e = false := by
  intro world r
  induction r with
  | zero => intro c e he; simp [resumeLoop] at he
  | succ m ih =>
    intro c e he
    simp only [resumeLoop] at he
    split at he
    · rcases List.mem_cons.1 he with h | h
      · subst h; exact ⟨rfl, rfl⟩
      · exact ih (c + 1) e h
    · simp at he

theorem pendingIdxAux_nil :
    ∀ (l : List FileRecord) (i : Nat), (∀ r ∈ l, r.downloaded = true) → pendingIdxAux l i = [] := by
  intro l
  induction l with
  | nil => intro i _; rfl
  | cons r t ih =>
    intro i hall
    simp only [pendingIdxAux]
    rw [if_pos (hall r (List.mem_cons_self r t))]
    exact ih (i + 1) (fun x hx => hall x (List.mem_cons_of_mem r hx))

theorem scrapeLoop_no_new :
    ∀ (world : Nat → PageView) (net : String → Nat → Resp) (bs : Option Nat) (snap : List String)
      (fuel pos : Nat) (st : ScrapeState),
      (∀ p h2, h2 ∈ collect_links_from_page (world p).domLinks (world p).html →
        lastSeg h2 ∈ st.fileSet) →
      ((scrapeLoop world net bs snap fuel pos st).index = st.index ∧
       (scrapeLoop world net bs snap fuel pos st).fileSet = st.fileSet ∧
       (scrapeLoop world net bs snap fuel pos st).newFiles = st.newFiles ∧
       (scrapeLoop world net bs snap fuel pos st).fs = st.fs ∧
       ∃ tail, (scrapeLoop world net bs snap fuel pos st).trace = st.trace ++ tail ∧
         ∀ e ∈ tail, isNetRequest e = false ∧ isFileWriteEv e = false) := by
  intro world net bs snap fuel
  induction fuel with
  | zero =>
    intro pos st _
    exact ⟨rfl, rfl, rfl, rfl, [], (List.append_nil _).symm, by simp⟩
  | succ m ih =>
    intro pos st hall
    simp only [scrapeLoop]
    by_cases hcap : capReached bs st.newFiles.length = true
    · rw [if_pos hcap]
      exact ⟨rfl, rfl, rfl, rfl, [], (List.append_nil _).symm, by simp⟩
    · rw [if_neg hcap]
      by_cases hden : is_access_denied (world pos).html = true
      · rw [if_pos hden]
        refine ⟨rfl, rfl, rfl, rfl, debugEvs (world pos).html pos, rfl, ?_⟩
        intro e he
        unfold debugEvs at he
        split at he
        · simp at he
        · simp at he
          subst he
          exact ⟨rfl, rfl⟩
      · rw [if_neg hden]
        by_cases hle : (collect_links_from_page (world pos).domLinks (world pos).html).isEmpty = true
        · rw [if_pos hle]
          refine ⟨rfl, rfl, rfl, rfl, debugEvs (world pos).html pos, rfl, ?_⟩
          intro e he
          unfold debugEvs at he
          split at he
          · simp at he
          · simp at he
            subst he
            exact ⟨rfl, rfl⟩
        · rw [if_neg hle]
          have hid : processLinks snap bs
              (collect_links_from_page (world pos).domLinks (world pos).html)
              ⟨st.index, st.fileSet, st.newFiles, []⟩ = ⟨st.index, st.fileSet, st.newFiles, []⟩ :=
            processLinks_id snap bs _ _ (fun x hx => hall pos x hx)
          rw [hid]
          rw [if_pos (show ((⟨st.index, st.fileSet, st.newFiles, []⟩ : LinkAcc).pageNew.isEmpty = true) from rfl)]
          by_cases hnx : (world pos).hasNext = true
          · rw [if_pos hnx]
            obtain ⟨h1, h2, h3, h4, tail, ht, hcl⟩ := ih (pos + 1)
              ⟨st.index, st.fileSet, pos + 1, st.fs, st.newFiles
              , (st.trace ++ [Ev.saveState (pos + 1), Ev.saveIndex])
                  ++ [Ev.pageFetch (pos + 1), Ev.sleepMs 800]⟩ hall
            refine ⟨h1, h2, h3, h4
              , [Ev.saveState (pos + 1), Ev.saveIndex, Ev.pageFetch (pos + 1), Ev.sleepMs 800] ++ tail
              , ?_, ?_⟩
            · rw [ht]
              simp [List.append_assoc]
            · intro e he
              rcases List.mem_append.1 he with h5 | h5
              · simp at h5
                rcases h5 with rfl | rfl | rfl | rfl <;> exact ⟨rfl, rfl⟩
              · exact hcl e h5
          · rw [if_neg hnx]
            refine ⟨rfl, rfl, rfl, rfl, [Ev.saveState (pos + 1), Ev.saveIndex], rfl, ?_⟩
            intro e he
            simp at he
            rcases he with rfl | rfl <;> exact ⟨rfl, rfl⟩

theorem scrape_no_new :
    ∀ (world : Nat → PageView) (net : String → Nat → Resp) (bs : Option Nat) (fuel : Nat)
      (index : List FileRecord) (fset : List String) (sp : Nat) (fs : List String),
      (∀ p h2, h2 ∈ collect_links_from_page (world p).domLinks (world p).html →
        lastSeg h2 ∈ fset) →
      ((scrape_pages_for_batch world net bs fuel index fset sp fs).index = index ∧
       (scrape_pages_for_batch world net bs fuel index fset sp fs).newFiles = [] ∧
       ∀ e ∈ (scrape_pages_for_batch world net bs fuel index fset sp fs).trace,
         isNetRequest e = false ∧ isFileWriteEv e = false) := by
  intro world net bs fuel index fset sp fs hall
  simp only [scrape_pages_for_batch]
  obtain ⟨h1, h2, h3, h4, tail, ht, hcl⟩ := scrapeLoop_no_new world net bs fs fuel
    (resumeLoop world 0 sp).1
    ⟨index, fset, sp, fs, []
    , [Ev.launchBrowser, Ev.pageFetch 0, Ev.pageFetch 0] ++ (resumeLoop world 0 sp).2⟩ hall
  refine ⟨h1, h3, ?_⟩
  intro e he
  rw [ht] at he
  rcases List.mem_append.1 he with h5 | h5
  · replace h5 : e ∈ [Ev.launchBrowser, Ev.pageFetch 0, Ev.pageFetch 0]
        ++ (resumeLoop world 0 sp).2 := h5
    rcases List.mem_append.1 h5 with h6 | h6
    · simp at h6
      rcases h6 with rfl | rfl | rfl <;> exact ⟨rfl, rfl⟩
    · exact resumeLoop_clean world sp 0 e h6
  · exact hcl e h5

/-- Counterexample to C1 as stated: a second auto run over a complete
Index (no pending records) and an unchanged one-page listing still
performs two browser page fetches and one Cursor document write, so it
does not perform zero network page fetches and zero file writes. -/
theorem auto_rerun_counterexample :
    pendingIdx cidx1 = [] ∧
    (auto_scrape_and_download cw1 cnet none 3 cidx1 1 ["a.pdf"]).trace.countP isPageFetch = 2 ∧
    (auto_scrape_and_download cw1 cnet none 3 cidx1 1 ["a.pdf"]).trace.countP isSaveStateEv = 1 :=
  ⟨by decide, by decide, by decide⟩

/-- Claim C1 (amended): re-running the Orchestrator when every Index
record is downloaded and every reference the listing yields is already
indexed performs no download HTTP requests and writes no downloaded
files, and the Index comes back unchanged; listing page fetches and
Cursor/Index document rewrites do still occur. -/
theorem auto_rerun_complete_no_downloads :
    ∀ (world : Nat → PageView) (net : String → Nat → Resp) (batchSize : Option Nat) (fuel : Nat)
      (index : List FileRecord) (statePage : Nat) (fs : List String),
      (∀ r ∈ index, r.downloaded = true) →
      (∀ p h2, h2 ∈ collect_links_from_page (world p).domLinks (world p).html →
        lastSeg h2 ∈ fileSetOf index) →
      ((auto_scrape_and_download world net batchSize fuel index statePage fs).index = index ∧
       ∀ e ∈ (auto_scrape_and_download world net batchSize fuel index statePage fs).trace,
         isNetRequest e = false ∧ isFileWriteEv e = false) := by
  intro world net bs fuel index sp fs hdl hall
  unfold auto_scrape_and_download
  cases fuel with
  | zero =>
    refine ⟨rfl, ?_⟩
    intro e he
    simp [autoLoop] at he
  | succ n =>
    simp only [autoLoop]
    have hpend : pendingIdx index = [] := pendingIdxAux_nil index 0 hdl
    rw [if_pos (by rw [hpend]; rfl : ((pendingIdx index).isEmpty = true))]
    obtain ⟨hsi, hsn, hscl⟩ := scrape_no_new world net bs (n + 1) index (fileSetOf index) sp fs hall
    rw [if_pos (by simp [hsn] :
      ((scrape_pages_for_batch world net bs (n + 1) index (fileSetOf index) sp fs).newFiles.isEmpty = true))]
    refine ⟨hsi, ?_⟩
    intro e he
    replace he : e ∈ ([] : List Ev)
        ++ (scrape_pages_for_batch world net bs (n + 1) index (fileSetOf index) sp fs).trace := he
    rw [List.nil_append] at he
    exact hscl e he

/-- Witness for C1 (amended): the concrete complete-Index re-run returns
the Index unchanged. -/
theorem auto_rerun_complete_no_downloads_witness :
    (auto_scrape_and_download cw1 cnet none 3 cidx1 1 ["a.pdf"]).index = cidx1 :=
  (auto_rerun_complete_no_downloads cw1 cnet none 3 cidx1 1 ["a.pdf"]
    (by decide)
    (fun p h2 hmem => by
      by_cases hp : p = 0
      · subst hp
        rw [show collect_links_from_page (cw1 0).domLinks (cw1 0).html
            = ["/epstein/files/a.pdf"] from by decide] at hmem
        simp at hmem
        subst hmem
        decide
      · have hw : cw1 p = pvE := by simp [cw1, hp]
        rw [hw, show collect_links_from_page pvE.domLinks pvE.html = [] from by decide] at hmem
        simp at hmem)).1
